import Mathlib

/-!
Verification of the WebUntis timetable integration
(`custom_components/webuntis/__init__.py` and `const.py`).

The Python code is shallowly embedded: timestamps are natural numbers
counting minutes, one day being 1440 minutes; Python's `sorted` (a stable
ascending sort) is modelled by a stable insertion sort `sortByKey`;
`datetime.replace(hour=0, ...) + timedelta(days=1)` becomes `nextMidnight`;
fallible executor jobs become `Except Unit` outcomes; `None` becomes
`Option.none`.  Display-only conversions (`astimezone`, JSON rendering) are
dropped or kept abstract.
-/

namespace WebUntisSpec

/-! ## Stable sorting by a numeric key (model of Python's `sorted`) -/

/-- Insert `a` into `l` before the first element with a key not smaller
than `f a`; on equal keys the inserted (earlier) element comes first, so
the resulting sort is stable, as Python's `sorted` is. -/
def insertSorted {α : Type} (f : α → Nat) (a : α) : List α → List α
  | [] => [a]
  | b :: l => if f a ≤ f b then a :: b :: l else b :: insertSorted f a l

/-- Stable insertion sort by the key `f`, ascending. -/
def sortByKey {α : Type} (f : α → Nat) : List α → List α
  | [] => []
  | a :: l => insertSorted f a (sortByKey f l)

theorem insertSorted_perm {α : Type} (f : α → Nat) (a : α) (l : List α) :
    (insertSorted f a l).Perm (a :: l) := by
  induction l with
  | nil => exact List.Perm.refl _
  | cons b l ih =>
    by_cases h : f a ≤ f b
    · simp only [insertSorted, if_pos h]
      exact List.Perm.refl _
    · simp only [insertSorted, if_neg h]
      exact (ih.cons b).trans (List.Perm.swap a b l)

theorem sortByKey_perm {α : Type} (f : α → Nat) (l : List α) :
    (sortByKey f l).Perm l := by
  induction l with
  | nil => exact List.Perm.refl _
  | cons a l ih =>
    exact (insertSorted_perm f a (sortByKey f l)).trans (ih.cons a)

theorem mem_sortByKey {α : Type} (f : α → Nat) (l : List α) (x : α) :
    x ∈ sortByKey f l ↔ x ∈ l :=
  (sortByKey_perm f l).mem_iff

theorem insertSorted_pairwise {α : Type} (f : α → Nat) (a : α) (l : List α)
    (h : l.Pairwise (fun x y => f x ≤ f y)) :
    (insertSorted f a l).Pairwise (fun x y => f x ≤ f y) := by
  induction l with
  | nil => simp [insertSorted]
  | cons b l ih =>
    rcases List.pairwise_cons.mp h with ⟨hb, hl⟩
    by_cases hab : f a ≤ f b
    · simp only [insertSorted, if_pos hab]
      refine List.pairwise_cons.mpr ⟨?_, h⟩
      intro y hy
      rcases List.mem_cons.mp hy with hy | hy
      · exact hy ▸ hab
      · exact le_trans hab (hb y hy)
    · simp only [insertSorted, if_neg hab]
      refine List.pairwise_cons.mpr ⟨?_, ih hl⟩
      intro y hy
      rcases List.mem_cons.mp ((insertSorted_perm f a l).mem_iff.mp hy) with hy | hy
      · exact hy ▸ le_of_not_le hab
      · exact hb y hy

theorem sortByKey_pairwise {α : Type} (f : α → Nat) (l : List α) :
    (sortByKey f l).Pairwise (fun x y => f x ≤ f y) := by
  induction l with
  | nil => simp [sortByKey]
  | cons a l ih => exact insertSorted_pairwise f a (sortByKey f l) ih

theorem insertSorted_eq_cons {α : Type} (f : α → Nat) (a : α) (l : List α)
    (h : ∀ x ∈ l, f a ≤ f x) : insertSorted f a l = a :: l := by
  cases l with
  | nil => rfl
  | cons b l => exact if_pos (h b (List.mem_cons_self b l))

theorem sortByKey_eq_self {α : Type} (f : α → Nat) (l : List α)
    (h : l.Pairwise (fun x y => f x ≤ f y)) : sortByKey f l = l := by
  induction l with
  | nil => rfl
  | cons a l ih =>
    rcases List.pairwise_cons.mp h with ⟨ha, hl⟩
    rw [sortByKey, ih hl, insertSorted_eq_cons f a l ha]

theorem pairwise_head?_rel {α : Type} (R : α → α → Prop) (hrefl : ∀ a, R a a)
    (l : List α) (x : α) (hp : l.Pairwise R) (hx : l.head? = some x) :
    ∀ y ∈ l, R x y := by
  cases l with
  | nil => simp at hx
  | cons a t =>
    simp only [List.head?_cons, Option.some.injEq] at hx
    subst hx
    rcases List.pairwise_cons.mp hp with ⟨ha, _⟩
    intro y hy
    rcases List.mem_cons.mp hy with hy | hy
    · exact hy ▸ hrefl _
    · exact ha y hy

theorem pairwise_head?_min {α : Type} (f : α → Nat) (l : List α) (x : α)
    (hp : l.Pairwise (fun x y => f x ≤ f y)) (hx : l.head? = some x) :
    ∀ y ∈ l, f x ≤ f y :=
  pairwise_head?_rel (fun x y => f x ≤ f y) (fun _ => le_refl _) l x hp hx

theorem mem_of_head? {α : Type} (l : List α) (x : α) (hx : l.head? = some x) :
    x ∈ l := by
  cases l with
  | nil => simp at hx
  | cons a t =>
    simp only [List.head?_cons, Option.some.injEq] at hx
    exact hx ▸ List.mem_cons_self a t

theorem mem_of_getLast? {α : Type} (l : List α) (x : α)
    (hx : l.getLast? = some x) : x ∈ l := by
  rw [← List.head?_reverse] at hx
  exact List.mem_reverse.mp (mem_of_head? _ x hx)

theorem pairwise_getLast?_max {α : Type} (f : α → Nat) (l : List α) (x : α)
    (hp : l.Pairwise (fun x y => f x ≤ f y)) (hx : l.getLast? = some x) :
    ∀ y ∈ l, f y ≤ f x := by
  rw [← List.head?_reverse] at hx
  have hrev : l.reverse.Pairwise (fun x y => f y ≤ f x) :=
    List.pairwise_reverse.mpr hp
  intro y hy
  exact pairwise_head?_rel (fun x y => f y ≤ f x) (fun _ => le_refl _)
    l.reverse x hrev hx y (List.mem_reverse.mpr hy)

theorem head?_sortByKey_id_eq_min? (l : List Nat) :
    (sortByKey id l).head? = l.min? := by
  induction l with
  | nil => rfl
  | cons a l ih =>
    rw [sortByKey, List.min?_cons]
    cases hs : sortByKey id l with
    | nil =>
      rw [hs] at ih
      simp only [List.head?_nil] at ih
      rw [← ih]
      rfl
    | cons b t =>
      rw [hs] at ih
      simp only [List.head?_cons] at ih
      rw [← ih]
      by_cases hab : a ≤ b
      · simp only [insertSorted, id, if_pos hab, List.head?_cons,
          Option.elim_some]
        rw [min_eq_left hab]
      · simp only [insertSorted, id, if_neg hab, List.head?_cons,
          Option.elim_some]
        rw [min_eq_right (le_of_not_le hab)]

/-! ## Lesson model and the lesson filter `check_lesson`
(source: `__init__.py`, lines 712-736).  A lesson's `subjects`, `lstext`
(Vertretungstext) and `substText` (Informationen zur Stunde) are the fields
`check_lesson` reads; `start` and `end` feed the derived computations. -/

structure SubjectRef where
  name : String
  long_name : String
  id : Nat
deriving DecidableEq

structure Lesson where
  start : Nat
  «end» : Nat
  code : String
  subjects : List SubjectRef
  lstext : String
  substText : String
deriving DecidableEq

/-- Configuration the filter reads from the config entry's options:
`filter_mode` (one of "None", "Blacklist", "Whitelist"), `filter_subjects`
and `filter_description`. -/
structure FilterConfig where
  filter_mode : String
  filter_subjects : List String
  filter_description : List String
deriving DecidableEq

/-- Python's substring test `needle in hay`. -/
def strContains (hay needle : String) : Bool :=
  decide (needle.toList <:+: hay.toList)

/-- Model of `WebUntis.check_lesson(self, lesson, ignor_cancelled=False)`:
rule 1 cancellation, rule 2 empty subjects, rule 3 excluded description
fragments, then the blacklist/whitelist rules, which the source applies to
`any` subject of the lesson via
`any(subject.name in self.filter_subjects for subject in lesson.subjects)`. -/
def check_lesson (cfg : FilterConfig) (lesson : Lesson)
    (ignor_cancelled : Bool) : Bool :=
  if lesson.code = "cancelled" ∧ ignor_cancelled = false then false
  else if lesson.subjects = [] then false
  else if cfg.filter_description.any (fun fd =>
      strContains lesson.lstext fd || strContains lesson.substText fd) then false
  else if cfg.filter_mode = "Blacklist" ∧
      (lesson.subjects.any fun s => decide (s.name ∈ cfg.filter_subjects)) = true
    then false
  else if cfg.filter_mode = "Whitelist" ∧ cfg.filter_subjects ≠ [] ∧
      (lesson.subjects.any fun s => decide (s.name ∈ cfg.filter_subjects)) = false
    then false
  else true

/-! ## Derived computations over one fetched timetable
(source: `__init__.py`, lines 478-558 and 688-710).  Each takes the fetched
`table` and the current time `now` explicitly; `.astimezone()` calls, pure
timezone display conversions, are dropped. -/

/-- Model of `WebUntis._is_class`: scan today's table and report whether a
lesson with `lesson.start < now < lesson.end` passes `check_lesson`. -/
def _is_class (cfg : FilterConfig) (table : List Lesson) (now : Nat) : Bool :=
  table.any fun lesson =>
    decide (lesson.start < now) && decide (now < lesson.«end») &&
      check_lesson cfg lesson false

/-- Model of `WebUntis._next_class`: keep lessons with `lesson.start > now`
passing `check_lesson`, sort by start time, and return the first start; the
`IndexError` on an empty list becomes `none`.  The `next_class_json` side
effect is display-only and modelled separately in the update cycle. -/
def _next_class (cfg : FilterConfig) (table : List Lesson) (now : Nat) :
    Option Nat :=
  match sortByKey Lesson.start (table.filter fun lesson =>
      decide (now < lesson.start) && check_lesson cfg lesson false) with
  | [] => none
  | lesson :: _ => some lesson.start

/-- Midnight after `now`: `now.replace(hour=0, minute=0, second=0,
microsecond=0) + timedelta(days=1)` with minutes as the unit. -/
def nextMidnight (now : Nat) : Nat := (now / 1440 + 1) * 1440

/-- The loop of `_next_lesson_to_wake_up` over the sorted start times: a
start before `day` flips `day` to the midnight after `now` and is dropped,
any other start is kept. -/
def wakeFilter (now : Nat) : Nat → List Nat → List Nat
  | _, [] => []
  | day, t :: ts =>
    if t < day then wakeFilter now (nextMidnight now) ts
    else t :: wakeFilter now day ts

/-- Model of `WebUntis._next_lesson_to_wake_up`: collect the start times of
lessons passing `check_lesson`, run the day-rollover loop over them in
sorted order, and return the smallest surviving time (`none` on
`IndexError`). -/
def _next_lesson_to_wake_up (cfg : FilterConfig) (table : List Lesson)
    (now : Nat) : Option Nat :=
  match sortByKey id (wakeFilter now now (sortByKey id
      ((table.filter fun lesson => check_lesson cfg lesson false).map
        Lesson.start))) with
  | [] => none
  | t :: _ => some t

/-- Model of `WebUntis._today`: the earliest start and the latest end of
today's lessons passing `check_lesson`; `[None, None]` when the
`IndexError` fires on the empty lists. -/
def _today (cfg : FilterConfig) (table : List Lesson) :
    Option Nat × Option Nat :=
  match (sortByKey id ((table.filter fun lesson =>
        check_lesson cfg lesson false).map Lesson.start)).head?,
      (sortByKey id ((table.filter fun lesson =>
        check_lesson cfg lesson false).map Lesson.«end»)).getLast? with
  | some s, some e => (some s, some e)
  | _, _ => (none, none)

/-! ## C2: which subjects the blacklist/whitelist rules inspect -/

/-- Blacklist configuration with subject "B" excluded and no description
filter. -/
def cfgC2 : FilterConfig := ⟨"Blacklist", ["B"], []⟩

/-- A regular lesson whose primary subject is "A" and which also carries the
secondary subject "B". -/
def lessonC2 : Lesson := ⟨540, 590, "regular", [⟨"A", "Alpha", 1⟩, ⟨"B", "Beta", 2⟩], "", ""⟩

/-- C2, counterexample: the lesson passes rules 1-3 and its primary (first)
subject "A" is not in the blacklist, yet `check_lesson` reports it inactive,
because the source checks every subject of the lesson, not only the primary
one.  So inactivity is not equivalent to the primary subject being listed. -/
theorem check_lesson_primary_subject_counterexample :
    check_lesson cfgC2 lessonC2 false = false ∧
    (lessonC2.subjects.map SubjectRef.name).head? = some "A" ∧
    ¬ "A" ∈ cfgC2.filter_subjects ∧
    lessonC2.code ≠ "cancelled" ∧ lessonC2.subjects ≠ [] ∧
    cfgC2.filter_description = [] ∧ cfgC2.filter_mode = "Blacklist" := by
  decide

theorem check_lesson_eq_false_iff (cfg : FilterConfig) (lesson : Lesson)
    (ign : Bool)
    (h1 : ¬ (lesson.code = "cancelled" ∧ ign = false))
    (h2 : lesson.subjects ≠ [])
    (h3 : (cfg.filter_description.any fun fd =>
      strContains lesson.lstext fd || strContains lesson.substText fd) = false) :
    check_lesson cfg lesson ign = false ↔
      (cfg.filter_mode = "Blacklist" ∧
        ∃ s ∈ lesson.subjects, s.name ∈ cfg.filter_subjects) ∨
      (cfg.filter_mode = "Whitelist" ∧ cfg.filter_subjects ≠ [] ∧
        ∀ s ∈ lesson.subjects, s.name ∉ cfg.filter_subjects) := by
  unfold check_lesson
  rw [if_neg h1, if_neg h2, if_neg (by simp [h3])]
  by_cases hB : cfg.filter_mode = "Blacklist" ∧
      (lesson.subjects.any fun s => decide (s.name ∈ cfg.filter_subjects)) = true
  · rw [if_pos hB]
    simp only [List.any_eq_true, decide_eq_true_eq] at hB
    simp [hB.1, hB.2]
  · rw [if_neg hB]
    by_cases hW : cfg.filter_mode = "Whitelist" ∧ cfg.filter_subjects ≠ [] ∧
        (lesson.subjects.any fun s => decide (s.name ∈ cfg.filter_subjects)) = false
    · rw [if_pos hW]
      rcases hW with ⟨hm, hne, hany⟩
      simp only [List.any_eq_false, decide_eq_true_eq] at hany
      simp only [hm, hne]
      constructor
      · intro _
        exact Or.inr ⟨trivial, hne, hany⟩
      · intro _
        trivial
    · rw [if_neg hW]
      constructor
      · intro h
        exact absurd h (by simp)
      · intro h
        rcases h with ⟨hm, s, hs, hmem⟩ | ⟨hm, hne, hall⟩
        · refine absurd ⟨hm, List.any_eq_true.mpr ⟨s, hs, ?_⟩⟩ hB
          simpa using hmem
        · refine absurd ⟨hm, hne, List.any_eq_false.mpr ?_⟩ hW
          intro x hx
          simpa using hall x hx

/-- C2, amended: for a lesson that passes rules 1-3, under blacklist mode it
is inactive iff some subject of the lesson (not just the primary) is in the
configured list, and under whitelist mode with a non-empty list it is
inactive iff no subject of the lesson is in the list. -/
theorem check_lesson_subject_filter (cfg : FilterConfig) (lesson : Lesson)
    (ign : Bool)
    (h1 : ¬ (lesson.code = "cancelled" ∧ ign = false))
    (h2 : lesson.subjects ≠ [])
    (h3 : (cfg.filter_description.any fun fd =>
      strContains lesson.lstext fd || strContains lesson.substText fd) = false) :
    (cfg.filter_mode = "Blacklist" →
      (check_lesson cfg lesson ign = false ↔
        ∃ s ∈ lesson.subjects, s.name ∈ cfg.filter_subjects))
  ∧ (cfg.filter_mode = "Whitelist" → cfg.filter_subjects ≠ [] →
      (check_lesson cfg lesson ign = false ↔
        ∀ s ∈ lesson.subjects, s.name ∉ cfg.filter_subjects)) := by
  have hch := check_lesson_eq_false_iff cfg lesson ign h1 h2 h3
  constructor
  · intro hmode
    rw [hch]
    simp [hmode]
  · intro hmode hne
    rw [hch]
    simp [hmode, hne]

/-- C2, witness: the amended theorem applied to the concrete blacklist
configuration and lesson above. -/
theorem check_lesson_subject_filter_witness :
    check_lesson cfgC2 lessonC2 false = false ↔
      ∃ s ∈ lessonC2.subjects, s.name ∈ cfgC2.filter_subjects :=
  (check_lesson_subject_filter cfgC2 lessonC2 false (by decide) (by decide)
    (by decide)).1 (by decide)

/-! ## C3: boundary behaviour of `_is_class` -/

/-- Unfiltered configuration. -/
def cfgC3 : FilterConfig := ⟨"None", [], []⟩

/-- An active lesson running from minute 600 to minute 660. -/
def lessonC3 : Lesson := ⟨600, 660, "regular", [⟨"M", "Math", 1⟩], "", ""⟩

/-- C3, counterexample: at the instant `now` equals an active lesson's start
time, `_is_class` reports `false`, because the source tests
`lesson.start < now < lesson.end` with a strict lower bound. -/
theorem is_class_boundary_counterexample :
    _is_class cfgC3 [lessonC3] 600 = false ∧
    check_lesson cfgC3 lessonC3 false = true ∧
    lessonC3.start ≤ 600 ∧ 600 < lessonC3.«end» := by
  decide

/-- C3, amended: `_is_class` returns true iff some lesson of the table is
active under `check_lesson` with `ignor_cancelled = false` and satisfies
`start < now < end` (strict at the start, not `start ≤ now`). -/
theorem is_class_strict_iff (cfg : FilterConfig) (table : List Lesson)
    (now : Nat) :
    _is_class cfg table now = true ↔
      ∃ lesson ∈ table, lesson.start < now ∧ now < lesson.«end» ∧
        check_lesson cfg lesson false = true := by
  unfold _is_class
  simp [List.any_eq_true, and_assoc]

/-! ## C6: `_next_class` returns the earliest strictly-future active start -/

/-- C6: `_next_class` returns `none` exactly when no lesson of the table is
both strictly in the future and active, and returns `some t` exactly when
`t` is the start of such a lesson and no such lesson starts earlier; the
missing-lesson case is the explicit absent value, not an error. -/
theorem next_class_earliest (cfg : FilterConfig) (table : List Lesson)
    (now : Nat) :
    (_next_class cfg table now = none ↔
      ∀ lesson ∈ table, ¬ (now < lesson.start ∧
        check_lesson cfg lesson false = true))
  ∧ (∀ t, _next_class cfg table now = some t ↔
      ((∃ lesson ∈ table, now < lesson.start ∧
          check_lesson cfg lesson false = true ∧ lesson.start = t) ∧
        ∀ lesson ∈ table, now < lesson.start →
          check_lesson cfg lesson false = true → t ≤ lesson.start)) := by
  unfold _next_class
  have hmem : ∀ x : Lesson,
      x ∈ sortByKey Lesson.start (table.filter fun lesson =>
        decide (now < lesson.start) && check_lesson cfg lesson false) ↔
      (x ∈ table ∧ (now < x.start ∧ check_lesson cfg x false = true)) := by
    intro x
    rw [mem_sortByKey, List.mem_filter]
    simp
  cases hS : sortByKey Lesson.start (table.filter fun lesson =>
      decide (now < lesson.start) && check_lesson cfg lesson false) with
  | nil =>
    have hempty : ∀ x : Lesson, ¬ (x ∈ table ∧ (now < x.start ∧
        check_lesson cfg x false = true)) := by
      intro x hx
      have hmemx := (hmem x).mpr hx
      rw [hS] at hmemx
      exact absurd hmemx (List.not_mem_nil x)
    constructor
    · constructor
      · intro _ lesson hl hcond
        exact hempty lesson ⟨hl, hcond⟩
      · intro _
        rfl
    · intro t
      constructor
      · intro h
        exact absurd h (by simp)
      · intro ⟨⟨lesson, hl, hnow, hcheck, _⟩, _⟩
        exact absurd ⟨hl, hnow, hcheck⟩ (hempty lesson)
  | cons lesson rest =>
    have hhead : lesson ∈ table ∧ (now < lesson.start ∧
        check_lesson cfg lesson false = true) :=
      (hmem lesson).mp (hS ▸ List.mem_cons_self lesson rest)
    have hmin : ∀ l₂ ∈ table, now < l₂.start →
        check_lesson cfg l₂ false = true → lesson.start ≤ l₂.start := by
      intro l₂ hl₂ hnow₂ hcheck₂
      refine pairwise_head?_min Lesson.start _ lesson
        (sortByKey_pairwise Lesson.start _) (by rw [hS]; rfl) l₂ ?_
      exact (hmem l₂).mpr ⟨hl₂, hnow₂, hcheck₂⟩
    constructor
    · constructor
      · intro h
        exact absurd h (by simp)
      · intro h
        exact absurd ⟨hhead.2.1, hhead.2.2⟩ (h lesson hhead.1)
    · intro t
      constructor
      · intro h
        have ht : lesson.start = t := by simpa using h
        exact ht ▸ ⟨⟨lesson, hhead.1, hhead.2.1, hhead.2.2, rfl⟩, hmin⟩
      · intro ⟨⟨l₀, hl₀, hnow₀, hcheck₀, hstart₀⟩, hminT⟩
        have h1 : t ≤ lesson.start :=
          hminT lesson hhead.1 hhead.2.1 hhead.2.2
        have h2 : lesson.start ≤ t :=
          hstart₀ ▸ hmin l₀ hl₀ hnow₀ hcheck₀
        simp [le_antisymm h2 h1]

/-! ## C7: `_today` returns the active-lesson span of the day -/

/-- C7: `_today` returns `(none, none)` exactly when no lesson of today's
table is active, and otherwise the pair of the minimum active start and the
maximum active end. -/
theorem today_span_min_max (cfg : FilterConfig) (table : List Lesson) :
    (_today cfg table = (none, none) ↔
      ∀ lesson ∈ table, check_lesson cfg lesson false = false)
  ∧ (∀ a b, _today cfg table = (some a, some b) ↔
      ((∃ lesson ∈ table, check_lesson cfg lesson false = true ∧
          lesson.start = a) ∧
        (∀ lesson ∈ table, check_lesson cfg lesson false = true →
          a ≤ lesson.start) ∧
        (∃ lesson ∈ table, check_lesson cfg lesson false = true ∧
          lesson.«end» = b) ∧
        ∀ lesson ∈ table, check_lesson cfg lesson false = true →
          lesson.«end» ≤ b)) := by
  unfold _today
  by_cases hF : (table.filter fun lesson => check_lesson cfg lesson false) = []
  · have hno : ∀ lesson ∈ table, check_lesson cfg lesson false = false := by
      intro lesson hl
      by_contra hc
      have : lesson ∈ table.filter fun lesson => check_lesson cfg lesson false :=
        List.mem_filter.mpr ⟨hl, by simpa using hc⟩
      rw [hF] at this
      exact absurd this (List.not_mem_nil lesson)
    rw [hF]
    constructor
    · constructor
      · intro _
        exact hno
      · intro _
        rfl
    · intro a b
      constructor
      · intro h
        exact absurd h (by simp [sortByKey])
      · intro ⟨⟨lesson, hl, hcheck, _⟩, _⟩
        exact absurd hcheck (by simp [hno lesson hl])
  · rcases List.exists_mem_of_ne_nil _ hF with ⟨l₁, hl₁⟩
    have hs1 : l₁.start ∈ (table.filter fun lesson =>
        check_lesson cfg lesson false).map Lesson.start :=
      List.mem_map.mpr ⟨l₁, hl₁, rfl⟩
    have he1 : l₁.«end» ∈ (table.filter fun lesson =>
        check_lesson cfg lesson false).map Lesson.«end» :=
      List.mem_map.mpr ⟨l₁, hl₁, rfl⟩
    rcases hhd : (sortByKey id ((table.filter fun lesson =>
        check_lesson cfg lesson false).map Lesson.start)).head? with _ | s₀
    · rw [List.head?_eq_none_iff] at hhd
      rw [← List.length_eq_zero] at hhd
      rw [(sortByKey_perm id _).length_eq, List.length_eq_zero] at hhd
      exact absurd (hhd ▸ hs1) (List.not_mem_nil _)
    rcases hlt : (sortByKey id ((table.filter fun lesson =>
        check_lesson cfg lesson false).map Lesson.«end»)).getLast? with _ | e₀
    · rw [← List.head?_reverse, List.head?_eq_none_iff,
        List.reverse_eq_nil_iff, ← List.length_eq_zero,
        (sortByKey_perm id _).length_eq, List.length_eq_zero] at hlt
      exact absurd (hlt ▸ he1) (List.not_mem_nil _)
    have hs₀mem : s₀ ∈ (table.filter fun lesson =>
        check_lesson cfg lesson false).map Lesson.start :=
      (mem_sortByKey id _ s₀).mp (mem_of_head? _ s₀ hhd)
    have he₀mem : e₀ ∈ (table.filter fun lesson =>
        check_lesson cfg lesson false).map Lesson.«end» :=
      (mem_sortByKey id _ e₀).mp (mem_of_getLast? _ e₀ hlt)
    have hs₀min : ∀ lesson ∈ table, check_lesson cfg lesson false = true →
        s₀ ≤ lesson.start := by
      intro lesson hl hcheck
      exact pairwise_head?_min id _ s₀ (sortByKey_pairwise id _) hhd
        lesson.start ((mem_sortByKey id _ _).mpr
          (List.mem_map.mpr ⟨lesson, List.mem_filter.mpr ⟨hl, hcheck⟩, rfl⟩))
    have he₀max : ∀ lesson ∈ table, check_lesson cfg lesson false = true →
        lesson.«end» ≤ e₀ := by
      intro lesson hl hcheck
      exact pairwise_getLast?_max id _ e₀ (sortByKey_pairwise id _) hlt
        lesson.«end» ((mem_sortByKey id _ _).mpr
          (List.mem_map.mpr ⟨lesson, List.mem_filter.mpr ⟨hl, hcheck⟩, rfl⟩))
    rcases List.mem_map.mp hs₀mem with ⟨ls, hls, hlse⟩
    rcases List.mem_filter.mp hls with ⟨hlsT, hlsC⟩
    rcases List.mem_map.mp he₀mem with ⟨le, hle, hlee⟩
    rcases List.mem_filter.mp hle with ⟨hleT, hleC⟩
    constructor
    · constructor
      · intro h
        exact absurd h (by simp)
      · intro h
        exact absurd (h ls hlsT) (by simp [hlsC])
    · intro a b
      constructor
      · intro h
        have hab : s₀ = a ∧ e₀ = b := by simpa using h
        refine ⟨⟨ls, hlsT, hlsC, hab.1 ▸ hlse⟩, hab.1 ▸ hs₀min,
          ⟨le, hleT, hleC, hab.2 ▸ hlee⟩, hab.2 ▸ he₀max⟩
      · intro ⟨⟨la, hlaT, hlaC, hlaS⟩, hamin, ⟨lb, hlbT, hlbC, hlbE⟩, hbmax⟩
        have ha : s₀ = a := by
          apply le_antisymm
          · exact hlaS ▸ hs₀min la hlaT hlaC
          · exact hlse ▸ hamin ls hlsT hlsC
        have hb : e₀ = b := by
          apply le_antisymm
          · exact hlee ▸ hbmax le hleT hleC
          · exact hlbE ▸ he₀max lb hlbT hlbC
        simp [ha, hb]

/-! ## C1: the day-rollover rule of `_next_lesson_to_wake_up` -/

theorem nextMidnight_gt (now : Nat) : now < nextMidnight now := by
  have h1 := Nat.div_add_mod now 1440
  have h2 : now % 1440 < 1440 := Nat.mod_lt now (by norm_num)
  unfold nextMidnight
  omega

theorem wakeFilter_of_forall (now d : Nat) (l : List Nat)
    (h : ∀ t ∈ l, ¬ t < d) : wakeFilter now d l = l := by
  induction l with
  | nil => rfl
  | cons t ts ih =>
    rw [wakeFilter, if_neg (h t (List.mem_cons_self t ts)),
      ih fun u hu => h u (List.mem_cons_of_mem t hu)]

theorem wakeFilter_midnight (now : Nat) (l : List Nat) :
    wakeFilter now (nextMidnight now) l =
      l.filter fun t => decide (nextMidnight now ≤ t) := by
  induction l with
  | nil => rfl
  | cons t ts ih =>
    by_cases h : t < nextMidnight now
    · rw [wakeFilter, if_pos h, ih, List.filter_cons,
        if_neg (by simp only [decide_eq_true_eq]; omega)]
    · rw [wakeFilter, if_neg h, ih, List.filter_cons,
        if_pos (by simp only [decide_eq_true_eq]; omega)]

theorem wakeFilter_sorted (now : Nat) (l : List Nat)
    (hp : l.Pairwise fun x y => x ≤ y) (h : ∃ t ∈ l, t < now) :
    wakeFilter now now l = l.filter fun t => decide (nextMidnight now ≤ t) := by
  cases l with
  | nil =>
    rcases h with ⟨t, ht, _⟩
    exact absurd ht (List.not_mem_nil t)
  | cons t ts =>
    by_cases hlt : t < now
    · rw [wakeFilter, if_pos hlt, wakeFilter_midnight, List.filter_cons,
        if_neg (by simp only [decide_eq_true_eq]
                   have := nextMidnight_gt now
                   omega)]
    · exfalso
      rcases h with ⟨u, hu, hun⟩
      rcases List.mem_cons.mp hu with hu | hu
      · omega
      · have : t ≤ u := (List.pairwise_cons.mp hp).1 u hu
        omega

/-- Modelled from the spec as amended by the counterexample below: the wake
time is the earliest active start at or after `now` when no active lesson
has already started before `now`; as soon as any active start lies in the
past, the rest of the current day is skipped and the wake time is the
earliest active start at or after the next midnight. -/
def next_wake_amended (now : Nat) (starts : List Nat) : Option Nat :=
  if starts.any (fun t => decide (t < now)) = true then
    (starts.filter fun t => decide (nextMidnight now ≤ t)).min?
  else
    starts.min?

/-- Unfiltered configuration for the C1 scenario. -/
def cfgC1 : FilterConfig := ⟨"None", [], []⟩

/-- The spec's scenario: active lessons today at 08:00 (minute 480) and
13:00 (minute 780) and tomorrow at 09:00 (minute 1980). -/
def tableC1 : List Lesson :=
  [⟨480, 530, "regular", [⟨"M", "Math", 1⟩], "", ""⟩,
   ⟨780, 830, "regular", [⟨"M", "Math", 1⟩], "", ""⟩,
   ⟨1980, 2030, "regular", [⟨"M", "Math", 1⟩], "", ""⟩]

/-- C1, counterexample: at `now` = 10:00 (minute 600) the claim expects
today's 13:00 lesson (minute 780), but the source flips `day` to the next
midnight at the first already-passed start (08:00) and then drops every
remaining start of today, returning tomorrow 09:00 (minute 1980).  The
claim's second scenario (`now` = 14:00, minute 840) does hold. -/
theorem next_wake_counterexample :
    _next_lesson_to_wake_up cfgC1 tableC1 600 = some 1980 ∧
    some (1980 : Nat) ≠ some 780 ∧
    _next_lesson_to_wake_up cfgC1 tableC1 840 = some 1980 := by
  decide

/-- C1, amended: `_next_lesson_to_wake_up` equals `next_wake_amended` on
the active start times: the earliest start at or after `now` if no active
start precedes `now`, and otherwise the earliest start at or after the next
midnight ("now" advances to the next midnight as soon as any lesson of the
current day has started, not only once all of today's lessons are
exhausted). -/
theorem next_wake_eq_amended (cfg : FilterConfig) (table : List Lesson)
    (now : Nat) :
    _next_lesson_to_wake_up cfg table now =
      next_wake_amended now ((table.filter fun lesson =>
        check_lesson cfg lesson false).map Lesson.start) := by
  unfold _next_lesson_to_wake_up next_wake_amended
  have hpair : ∀ l : List Nat,
      (sortByKey id l).Pairwise fun x y => x ≤ y := by
    intro l
    have hp := sortByKey_pairwise id l
    simpa using hp
  by_cases hany : ((table.filter fun lesson =>
      check_lesson cfg lesson false).map Lesson.start).any
        (fun t => decide (t < now)) = true
  · rw [if_pos hany]
    have hex : ∃ t ∈ sortByKey id ((table.filter fun lesson =>
        check_lesson cfg lesson false).map Lesson.start), t < now := by
      rcases List.any_eq_true.mp hany with ⟨t, ht, hdec⟩
      exact ⟨t, (mem_sortByKey id _ t).mpr ht, of_decide_eq_true hdec⟩
    rw [wakeFilter_sorted now _ (hpair _) hex]
    have hsorted : ((sortByKey id ((table.filter fun lesson =>
        check_lesson cfg lesson false).map Lesson.start)).filter
          fun t => decide (nextMidnight now ≤ t)).Pairwise
            fun x y : Nat => x ≤ y :=
      List.Pairwise.filter _ (hpair _)
    have hperm : ((sortByKey id ((table.filter fun lesson =>
        check_lesson cfg lesson false).map Lesson.start)).filter
          fun t => decide (nextMidnight now ≤ t)).Perm
        (sortByKey id (((table.filter fun lesson =>
          check_lesson cfg lesson false).map Lesson.start).filter
            fun t => decide (nextMidnight now ≤ t))) :=
      (List.Perm.filter _ (sortByKey_perm id _)).trans
        (sortByKey_perm id _).symm
    have heq : (sortByKey id ((table.filter fun lesson =>
        check_lesson cfg lesson false).map Lesson.start)).filter
          (fun t => decide (nextMidnight now ≤ t)) =
        sortByKey id (((table.filter fun lesson =>
          check_lesson cfg lesson false).map Lesson.start).filter
            fun t => decide (nextMidnight now ≤ t)) :=
      List.eq_of_perm_of_sorted hperm hsorted (hpair _)
    rw [sortByKey_eq_self _ _ (by simpa using hsorted), heq,
      ← head?_sortByKey_id_eq_min?]
    cases sortByKey id (((table.filter fun lesson =>
        check_lesson cfg lesson false).map Lesson.start).filter
          fun t => decide (nextMidnight now ≤ t)) with
    | nil => rfl
    | cons a rest => rfl
  · rw [if_neg hany]
    have hall : ∀ t ∈ sortByKey id ((table.filter fun lesson =>
        check_lesson cfg lesson false).map Lesson.start), ¬ t < now := by
      intro t ht
      have hf := List.any_eq_false.mp (Bool.not_eq_true _ ▸ hany) t
        ((mem_sortByKey id _ t).mp ht)
      simpa using hf
    rw [wakeFilter_of_forall now now _ hall,
      sortByKey_eq_self _ _ (by simpa using hpair ((table.filter fun lesson =>
        check_lesson cfg lesson false).map Lesson.start)),
      ← head?_sortByKey_id_eq_min?]
    cases sortByKey id ((table.filter fun lesson =>
        check_lesson cfg lesson false).map Lesson.start) with
    | nil => rfl
    | cons a rest => rfl

/-! ## C9: the compactor `compact_list`
The function `compact_list` lives in the repository's `utils` module, whose
file is not among the sources here (`__init__.py` only imports and calls
it), so it is modelled from the spec, section 4.3. -/

/-- The fields the spec names as defining "identical" records for
compaction: subject set, room set, change-tag set and status code. -/
structure RecordFields where
  subjects : List String
  rooms : List String
  tags : List String
  code : String
deriving DecidableEq

/-- One lesson-like record fed to the compactor: a time span plus the
compaction-relevant field values. -/
structure CRecord where
  start : Nat
  «end» : Nat
  fields : RecordFields
deriving DecidableEq

/-- The three compaction policies of the spec, named after the `type`
argument at the call sites: `compact_list(..., "calendar" | "notify" |
"dict")`. -/
inductive CompactMode where
  | calendar
  | notify
  | dict
deriving DecidableEq

/-- Modelled from the spec: the mode "selects which fields define
identical"; the spec fixes the same relevant field set (subject set, room
set, change-tag set, code) for every mode, so each policy compares that
full set. -/
def modeKey : CompactMode → RecordFields → RecordFields
  | _, f => f

/-- Modelled from the spec: the single left-to-right scan with a running
current block; a record extends the block iff its start equals the block's
end exactly and the mode-relevant fields agree, merging the end time
forward; otherwise the block is emitted and the record starts a new one. -/
def compactGo (key : RecordFields → RecordFields) :
    CRecord → List CRecord → List CRecord
  | cur, [] => [cur]
  | cur, r :: rs =>
    if r.start = cur.«end» ∧ key r.fields = key cur.fields then
      compactGo key { cur with «end» := r.«end» } rs
    else
      cur :: compactGo key r rs

/-- Modelled from the spec: `compact_list(list, type)` scans the input once
in order and merges maximal runs of back-to-back, field-identical records
into single blocks. -/
def compact_list (l : List CRecord) (mode : CompactMode) : List CRecord :=
  match l with
  | [] => []
  | r :: rs => compactGo (modeKey mode) r rs

/-- Two adjacent output blocks never satisfy the merge condition. -/
def NoMerge (key : RecordFields → RecordFields) (a b : CRecord) : Prop :=
  ¬ (b.start = a.«end» ∧ key b.fields = key a.fields)

theorem compactGo_head (key : RecordFields → RecordFields)
    (rs : List CRecord) : ∀ cur : CRecord, ∃ e tl,
      compactGo key cur rs =
        ({ start := cur.start, «end» := e, fields := cur.fields } : CRecord)
          :: tl := by
  induction rs with
  | nil =>
    intro cur
    exact ⟨cur.«end», [], rfl⟩
  | cons r rs ih =>
    intro cur
    by_cases h : r.start = cur.«end» ∧ key r.fields = key cur.fields
    · rcases ih { cur with «end» := r.«end» } with ⟨e, tl, htl⟩
      exact ⟨e, tl, by rw [compactGo, if_pos h, htl]⟩
    · exact ⟨cur.«end», compactGo key r rs, by rw [compactGo, if_neg h]⟩

theorem compactGo_chain (key : RecordFields → RecordFields)
    (rs : List CRecord) : ∀ cur : CRecord,
      List.Chain' (NoMerge key) (compactGo key cur rs) := by
  induction rs with
  | nil =>
    intro cur
    exact List.chain'_singleton cur
  | cons r rs ih =>
    intro cur
    by_cases h : r.start = cur.«end» ∧ key r.fields = key cur.fields
    · rw [compactGo, if_pos h]
      exact ih _
    · rw [compactGo, if_neg h]
      refine List.chain'_cons'.mpr ⟨?_, ih r⟩
      intro y hy
      rcases compactGo_head key rs r with ⟨e, tl, htl⟩
      rw [htl] at hy
      simp only [List.head?_cons, Option.mem_def, Option.some.injEq] at hy
      subst hy
      exact h

theorem compactGo_of_chain (key : RecordFields → RecordFields)
    (rs : List CRecord) : ∀ cur : CRecord,
      List.Chain' (NoMerge key) (cur :: rs) → compactGo key cur rs = cur :: rs := by
  induction rs with
  | nil =>
    intro cur _
    rfl
  | cons r rs ih =>
    intro cur hch
    rcases List.chain'_cons'.mp hch with ⟨hhd, htl⟩
    have hnm : NoMerge key cur r := hhd r rfl
    rw [compactGo, if_neg hnm, ih r htl]

/-- C9: compaction is idempotent per mode: re-compacting the output of
`compact_list` under the same mode returns it unchanged, because no two
adjacent output blocks are back-to-back with identical mode-relevant
fields. -/
theorem compact_list_idempotent (l : List CRecord) (mode : CompactMode) :
    compact_list (compact_list l mode) mode = compact_list l mode := by
  cases l with
  | nil => rfl
  | cons r rs =>
    have hch : List.Chain' (NoMerge (modeKey mode)) (compactGo (modeKey mode) r rs) :=
      compactGo_chain (modeKey mode) rs r
    show compact_list (compactGo (modeKey mode) r rs) mode =
      compactGo (modeKey mode) r rs
    cases hC : compactGo (modeKey mode) r rs with
    | nil => rfl
    | cons c cs =>
      rw [hC] at hch
      exact compactGo_of_chain (modeKey mode) cs c hch

/-! ## C4 and C5: the change-notification update `update_notify`
(source: `__init__.py`, lines 888-925).  The helper functions
`get_notify_blacklist`, `compare_list` and `get_notification` live in the
repository's `notify` module, whose file is not among the sources here, so
`update_notify` is parameterized over them; the control flow and the
handling of `notify_data` are taken from the source. -/

/-- One entry of `event_list`, as built by `get_lesson_for_notify` (lines
834-877); optional display fields are dropped. -/
structure NotifyEvent where
  start : Nat
  «end» : Nat
  subject_id : Nat
  id : Nat
  lsnumber : Nat
  code : String
deriving DecidableEq

/-- A notification payload as handed to the notify service: the message
fields are kept abstract as strings, the `data` map as an association
list. -/
structure Notification where
  message : String
  title : String
  data : List (String × String)
deriving DecidableEq

/-- The snapshot pair the notify pipeline owns: the current `event_list`
(refreshed by `_get_events`) and the previous `event_list_old`. -/
structure NotifyState where
  event_list : List NotifyEvent
  event_list_old : List NotifyEvent
deriving DecidableEq

/-- The `data` handling of the send loop (lines 913-914): when the static
configured `notify_data` is truthy (non-empty), the source executes
`notification["data"] = self.notify_data`, replacing the payload's data map
wholesale. -/
def apply_notify_data (notify_data : List (String × String))
    (n : Notification) : Notification :=
  if notify_data = [] then n else { n with data := notify_data }

/-- Model of `WebUntis.update_notify`: with an empty previous list the
current list becomes the baseline and nothing is sent; otherwise the old
and new lists are compared (blacklist-aware), the diff is compacted in
`"notify"` mode, mapped to notification payloads, each payload's data is
overridden by `notify_data` when configured, and the previous list is set
to the current one.  The returned pair is (new state, notifications sent). -/
def update_notify
    (get_notify_blacklist : List NotifyEvent → List String)
    (compare_list : List NotifyEvent → List NotifyEvent → List String →
      List CRecord)
    (get_notification : List CRecord → List String → List Notification)
    (notify_list : List String)
    (notify_data : List (String × String))
    (st : NotifyState) : NotifyState × List Notification :=
  if st.event_list_old = [] then
    ({ st with event_list_old := st.event_list }, [])
  else
    if compare_list st.event_list_old st.event_list
        (get_notify_blacklist st.event_list) = [] then
      ({ st with event_list_old := st.event_list }, [])
    else
      ({ st with event_list_old := st.event_list },
        (get_notification
          (compact_list (compare_list st.event_list_old st.event_list
            (get_notify_blacklist st.event_list)) CompactMode.notify)
          notify_list).map (apply_notify_data notify_data))

/-- C4: whenever the stored previous event list is empty — in particular on
the first update after process start, `event_list_old` being initialized to
`[]` — `update_notify` emits no notification and its only state change is
setting the previous list to the current list. -/
theorem update_notify_baseline
    (get_notify_blacklist : List NotifyEvent → List String)
    (compare_list : List NotifyEvent → List NotifyEvent → List String →
      List CRecord)
    (get_notification : List CRecord → List String → List Notification)
    (notify_list : List String)
    (notify_data : List (String × String))
    (st : NotifyState) (h : st.event_list_old = []) :
    update_notify get_notify_blacklist compare_list get_notification
        notify_list notify_data st =
      ({ st with event_list_old := st.event_list }, []) := by
  unfold update_notify
  rw [if_pos h]

/-- An event used by the concrete witnesses below. -/
def evW : NotifyEvent := ⟨540, 590, 7, 11, 3, "regular"⟩

/-- C4, witness: the baseline theorem at a concrete first-update state. -/
theorem update_notify_baseline_witness :
    update_notify (fun _ => []) (fun _ _ _ => []) (fun _ _ => []) [] []
        ⟨[evW], []⟩ =
      (⟨[evW], [evW]⟩, []) :=
  update_notify_baseline (fun _ => []) (fun _ _ _ => []) (fun _ _ => [])
    [] [] ⟨[evW], []⟩ rfl

/-- Modelled from the spec: the merge of the static configured payload with
the message-specific data, message-specific fields taking precedence on key
collision. -/
def merge_data_spec (static msgdata : List (String × String)) :
    List (String × String) :=
  (static.filter fun p => ¬ (msgdata.any fun q => q.1 = p.1) = true) ++ msgdata

/-- A diff record used by the C5 counterexample. -/
def crecC5 : CRecord := ⟨540, 590, ⟨["A"], ["R1"], ["rooms"], "regular"⟩⟩

/-- C5, counterexample: with static `notify_data` `[("k", "static")]` and a
message whose own data is `[("k", "msg")]`, the emitted notification
carries exactly the static payload — the source replaces the data map
wholesale — instead of the spec's merge in which the message-specific value
wins the collision. -/
theorem update_notify_data_counterexample :
    ((update_notify (fun _ => []) (fun _ _ _ => [crecC5])
        (fun _ _ => [⟨"m", "t", [("k", "msg")]⟩]) []
        [("k", "static")] ⟨[evW], [evW]⟩).2.map Notification.data) =
      [[("k", "static")]] ∧
    [("k", "static")] ≠ merge_data_spec [("k", "static")] [("k", "msg")] := by
  decide

/-- C5, amended: when static `notify_data` is configured (non-empty), every
emitted notification's data map equals the static payload itself: the
assignment `notification["data"] = self.notify_data` replaces any
message-specific data instead of merging with precedence to the message. -/
theorem update_notify_data_override
    (get_notify_blacklist : List NotifyEvent → List String)
    (compare_list : List NotifyEvent → List NotifyEvent → List String →
      List CRecord)
    (get_notification : List CRecord → List String → List Notification)
    (notify_list : List String)
    (notify_data : List (String × String))
    (st : NotifyState) (h : notify_data ≠ []) :
    ∀ n ∈ (update_notify get_notify_blacklist compare_list get_notification
        notify_list notify_data st).2, n.data = notify_data := by
  intro n hn
  unfold update_notify at hn
  by_cases h1 : st.event_list_old = []
  · rw [if_pos h1] at hn
    exact absurd hn (List.not_mem_nil n)
  · rw [if_neg h1] at hn
    by_cases h2 : compare_list st.event_list_old st.event_list
        (get_notify_blacklist st.event_list) = []
    · rw [if_pos h2] at hn
      exact absurd hn (List.not_mem_nil n)
    · rw [if_neg h2] at hn
      simp only at hn
      rcases List.mem_map.mp hn with ⟨m, _, hm⟩
      rw [← hm]
      unfold apply_notify_data
      rw [if_neg h]

/-- C5, witness: the override theorem applied at the counterexample's
concrete inputs; the emitted notification's data is the static payload. -/
theorem update_notify_data_override_witness :
    (Notification.mk "m" "t" [("k", "static")]).data = [("k", "static")] :=
  update_notify_data_override (fun _ => []) (fun _ _ _ => [crecC5])
    (fun _ _ => [⟨"m", "t", [("k", "msg")]⟩]) [] [("k", "static")]
    ⟨[evW], [evW]⟩ (by decide) ⟨"m", "t", [("k", "static")]⟩ (by decide)

/-! ## C8 and C10: the update cycle `_async_status_request`
(source: `__init__.py`, lines 211-439).  The executor jobs are modelled as
environment-supplied outcomes: each `try/except OSError` block of the
source either yields its value (`Except.ok`) or raises (`Except.error`).
Value dependencies between blocks (for example `_next_day_json` reading
`next_lesson_to_wake_up`) flow through the environment producing the
outcomes; the state updates and the control flow are the source's. -/

/-- The mutable per-account state the cycle reads and writes.  `today` is
the `[start, end]` pair, `notify_state` the `event_list`/`event_list_old`
pair, `updating` the login reference counter (a Python int). -/
structure CycleState where
  is_class : Option Bool
  next_class : Option Nat
  next_class_json : Option String
  next_lesson_to_wake_up : Option Nat
  next_day_json : Option String
  calendar_events : List CRecord
  today : Option Nat × Option Nat
  subjects : List String
  notify_state : NotifyState
  updating : Int
  loged_in : Bool
  last_status_request_failed : Bool

/-- What the remote session does during `webuntis_login`: whether a
`jsessionid` is present, whether the validity probe succeeds, whether a
fresh `session.login()` succeeds, and whether a failure is an `OSError`
(as opposed to another exception, which skips the property reset). -/
structure LoginEnv where
  has_session_id : Bool
  session_valid : Bool
  login_ok : Bool
  failure_is_os : Bool

/-- The two configuration flags the cycle control flow reads. -/
structure CycleConfig where
  keep_logged_in : Bool
  notify : Bool

/-- Outcomes of the cycle's executor jobs, one per `try/except` block, in
source order.  `r_next_class` carries the start and the json when a lesson
is found; `r_events` carries the compacted calendar events together with
the rebuilt `event_list`, and on failure the partially rebuilt
`event_list`; `r_notify` carries the new `event_list_old` and the
notifications sent. -/
structure DerivedOutcomes where
  r_schoolyears : Except Unit Bool
  r_subjects : Except Unit (List String)
  r_is_class : Except Unit Bool
  r_next_class : Except Unit (Option (Nat × String))
  r_next_wake : Except Unit (Option Nat)
  r_next_day : Except Unit (Option String)
  r_events : Except (List NotifyEvent) (List CRecord × List NotifyEvent)
  r_today : Except Unit (Option Nat × Option Nat)
  r_notify : Except Unit (List NotifyEvent × List Notification)

/-- The property reset of lines 232-237 and 391-396: all derived values to
unknown, the calendar emptied. -/
def resetProperties (st : CycleState) : CycleState :=
  { st with
    is_class := none, next_class := none, next_class_json := none,
    next_lesson_to_wake_up := none, calendar_events := [],
    next_day_json := none }

/-- Model of `WebUntis.webuntis_login` (lines 364-432): an already
logged-in session with a valid id is reused, otherwise a fresh login is
attempted; the counter `updating` is incremented exactly on the two
`return True` paths; an `OSError` failure resets the derived properties. -/
def webuntis_login (st : CycleState) (env : LoginEnv) : Bool × CycleState :=
  if st.loged_in = true ∧ env.has_session_id = true ∧
      env.session_valid = true then
    (true, { st with updating := st.updating + 1 })
  else if env.login_ok = true then
    (true, { st with loged_in := true, updating := st.updating + 1 })
  else if env.failure_is_os = true then
    (false, { resetProperties st with
      loged_in := false, last_status_request_failed := true })
  else
    (false, { st with
      loged_in := false, last_status_request_failed := true })

/-- Model of `WebUntis.webuntis_logout` (lines 434-439): decrement the
counter, and when `keep_logged_in` is unset and the counter has reached
zero invoke `session.logout()` (the returned flag) and clear the logged-in
flag. -/
def webuntis_logout (keep_logged_in : Bool) (st : CycleState) :
    CycleState × Bool :=
  let st2 := { st with updating := st.updating - 1 }
  if keep_logged_in = false ∧ st2.updating = 0 then
    ({ st2 with loged_in := false }, true)
  else
    (st2, false)

/-- The derived-computation section of the cycle (lines 258-360): one
`try/except OSError` block per property, each assigning its value on
success and its documented fallback on failure, the following blocks
running either way; the notify step runs only when notifications are
configured.  Returns the new state and the notifications sent. -/
def run_derived (cfg : CycleConfig) (st : CycleState) (o : DerivedOutcomes) :
    CycleState × List Notification :=
  let st1 := match o.r_subjects with
    | .ok s => { st with subjects := s }
    | .error _ => { st with subjects := [] }
  let st2 := match o.r_is_class with
    | .ok b => { st1 with is_class := some b }
    | .error _ => { st1 with is_class := none }
  let st3 := match o.r_next_class with
    | .ok none => { st2 with next_class := none }
    | .ok (some tj) => { st2 with
        next_class := some tj.1, next_class_json := some tj.2 }
    | .error _ => { st2 with next_class := none }
  let st4 := match o.r_next_wake with
    | .ok t => { st3 with next_lesson_to_wake_up := t }
    | .error _ => { st3 with next_lesson_to_wake_up := none }
  let st5 := match o.r_next_day with
    | .ok s => { st4 with next_day_json := s }
    | .error _ => { st4 with next_day_json := none }
  let st6 := match o.r_events with
    | .ok ce => { st5 with
        calendar_events := ce.1,
        notify_state := { st5.notify_state with event_list := ce.2 } }
    | .error evp => { st5 with
        calendar_events := [],
        notify_state := { st5.notify_state with event_list := evp } }
  let st7 := match o.r_today with
    | .ok p => { st6 with today := p }
    | .error _ => { st6 with today := (none, none) }
  if cfg.notify = true then
    match o.r_notify with
    | .ok ns => ({ st7 with
        notify_state := { st7.notify_state with event_list_old := ns.1 } },
      ns.2)
    | .error _ => (st7, [])
  else
    (st7, [])

/-- The result of one cycle, instrumented with the login outcome, the
number of `webuntis_logout` calls and whether `session.logout()` ran. -/
structure CycleResult where
  state : CycleState
  notifications : List Notification
  login_success : Bool
  logout_calls : Nat
  session_logout : Bool

/-- Model of `WebUntis._async_status_request` (lines 211-362): a failed
login returns at once with no logout; an invalid school year resets the
properties, logs out and returns; an `OSError` fetching the school years
is caught and the cycle proceeds; the normal path runs every derived
computation and logs out once at the end. -/
def _async_status_request (cfg : CycleConfig) (st : CycleState)
    (env : LoginEnv) (o : DerivedOutcomes) : CycleResult :=
  let login := webuntis_login st env
  if login.1 = false then
    ⟨login.2, [], false, 0, false⟩
  else
    match o.r_schoolyears with
    | .ok false =>
      let st2 := { resetProperties login.2 with
        last_status_request_failed := true }
      let lo := webuntis_logout cfg.keep_logged_in st2
      ⟨lo.1, [], true, 1, lo.2⟩
    | .ok true =>
      let d := run_derived cfg login.2 o
      let lo := webuntis_logout cfg.keep_logged_in d.1
      ⟨lo.1, d.2, true, 1, lo.2⟩
    | .error _ =>
      let d := run_derived cfg login.2 o
      let lo := webuntis_logout cfg.keep_logged_in d.1
      ⟨lo.1, d.2, true, 1, lo.2⟩

theorem run_derived_spec (cfg : CycleConfig) (st : CycleState)
    (o : DerivedOutcomes) :
    (run_derived cfg st o).1.is_class =
      (match o.r_is_class with | .ok b => some b | .error _ => none)
  ∧ (run_derived cfg st o).1.next_class =
      (match o.r_next_class with
        | .ok none => none | .ok (some tj) => some tj.1 | .error _ => none)
  ∧ (run_derived cfg st o).1.next_lesson_to_wake_up =
      (match o.r_next_wake with | .ok t => t | .error _ => none)
  ∧ (run_derived cfg st o).1.next_day_json =
      (match o.r_next_day with | .ok s => s | .error _ => none)
  ∧ (run_derived cfg st o).1.calendar_events =
      (match o.r_events with | .ok ce => ce.1 | .error _ => [])
  ∧ (run_derived cfg st o).1.today =
      (match o.r_today with | .ok p => p | .error _ => (none, none))
  ∧ (run_derived cfg st o).2 =
      (match o.r_notify, cfg.notify with
        | .ok ns, true => ns.2 | _, _ => [])
  ∧ (run_derived cfg st o).1.notify_state.event_list_old =
      (match o.r_notify, cfg.notify with
        | .ok ns, true => ns.1 | _, _ => st.notify_state.event_list_old)
  ∧ (run_derived cfg st o).1.updating = st.updating
  ∧ (run_derived cfg st o).1.loged_in = st.loged_in := by
  obtain ⟨ck, cn⟩ := cfg
  obtain ⟨r1, r2, r3, r4, r5, r6, r7, r8, r9⟩ := o
  rcases r2 with _ | r2 <;> rcases r3 with _ | r3 <;>
    rcases r4 with _ | (_ | tj) <;> rcases r5 with _ | r5 <;>
    rcases r6 with _ | r6 <;> rcases r7 with evp | ce <;>
    rcases r8 with _ | r8 <;> rcases r9 with _ | r9 <;> cases cn <;>
    exact ⟨rfl, rfl, rfl, rfl, rfl, rfl, rfl, rfl, rfl, rfl⟩

/-- C8: each derived computation of the cycle fails independently: every
property's final value is a function of that property's own outcome alone
(so an `OSError` in one block neither blocks the later blocks nor changes
any other property), and on failure each property takes its documented
fallback: `none` for status, next-class, next-wake-up and next-day JSON,
`[]` for the calendar events and the notifications, `(none, none)` for the
today span, and an unchanged previous event list for the notify diff. -/
theorem derived_computations_independent (cfg : CycleConfig)
    (st : CycleState) (o : DerivedOutcomes) :
    (run_derived cfg st o).1.is_class =
      (match o.r_is_class with | .ok b => some b | .error _ => none)
  ∧ (run_derived cfg st o).1.next_class =
      (match o.r_next_class with
        | .ok none => none | .ok (some tj) => some tj.1 | .error _ => none)
  ∧ (run_derived cfg st o).1.next_lesson_to_wake_up =
      (match o.r_next_wake with | .ok t => t | .error _ => none)
  ∧ (run_derived cfg st o).1.next_day_json =
      (match o.r_next_day with | .ok s => s | .error _ => none)
  ∧ (run_derived cfg st o).1.calendar_events =
      (match o.r_events with | .ok ce => ce.1 | .error _ => [])
  ∧ (run_derived cfg st o).1.today =
      (match o.r_today with | .ok p => p | .error _ => (none, none))
  ∧ (run_derived cfg st o).2 =
      (match o.r_notify, cfg.notify with
        | .ok ns, true => ns.2 | _, _ => [])
  ∧ (run_derived cfg st o).1.notify_state.event_list_old =
      (match o.r_notify, cfg.notify with
        | .ok ns, true => ns.1 | _, _ => st.notify_state.event_list_old) := by
  obtain ⟨h1, h2, h3, h4, h5, h6, h7, h8, _, _⟩ := run_derived_spec cfg st o
  exact ⟨h1, h2, h3, h4, h5, h6, h7, h8⟩

theorem webuntis_login_updating (st : CycleState) (env : LoginEnv) :
    (webuntis_login st env).2.updating =
      (if (webuntis_login st env).1 = true then st.updating + 1
       else st.updating) := by
  unfold webuntis_login
  split
  · rfl
  · split
    · rfl
    · split
      · rfl
      · rfl

theorem webuntis_logout_updating (k : Bool) (st : CycleState) :
    (webuntis_logout k st).1.updating = st.updating - 1 := by
  simp only [webuntis_logout]
  split <;> rfl

theorem webuntis_logout_invoked (k : Bool) (st : CycleState) :
    (webuntis_logout k st).2 = (!k && decide (st.updating - 1 = 0)) := by
  simp only [webuntis_logout]
  split
  · rename_i h
    rcases h with ⟨hk, hu⟩
    simp [hk, hu]
  · rename_i h
    rw [not_and_or] at h
    rcases h with h | h
    · have hk : k = true := by
        cases k
        · exact absurd rfl h
        · rfl
      simp [hk]
    · simp [h]

theorem webuntis_logout_flag (k : Bool) (st : CycleState) :
    ((webuntis_logout k st).2 && (webuntis_logout k st).1.loged_in) = false := by
  simp only [webuntis_logout]
  split <;> simp

/-- C10: the login reference counter is balanced across a cycle:
`webuntis_login` leaves the counter incremented by one exactly when it
succeeds, `webuntis_logout` decrements it by one on every call and invokes
`session.logout()` exactly when `keep_logged_in` is unset and the
decremented counter is zero (clearing the logged-in flag then),
`_async_status_request` performs exactly one logout per successful login
and none otherwise, and the cycle returns the counter to its pre-cycle
value. -/
theorem updating_balanced (cfg : CycleConfig) (st : CycleState)
    (env : LoginEnv) (o : DerivedOutcomes) (k : Bool) :
    (webuntis_login st env).2.updating =
      (if (webuntis_login st env).1 = true then st.updating + 1
       else st.updating)
  ∧ (webuntis_logout k st).1.updating = st.updating - 1
  ∧ (webuntis_logout k st).2 = (!k && decide (st.updating - 1 = 0))
  ∧ ((webuntis_logout k st).2 && (webuntis_logout k st).1.loged_in) = false
  ∧ (_async_status_request cfg st env o).logout_calls =
      (if (_async_status_request cfg st env o).login_success = true then 1
       else 0)
  ∧ (_async_status_request cfg st env o).state.updating = st.updating
  ∧ (_async_status_request cfg st env o).session_logout =
      ((_async_status_request cfg st env o).login_success &&
        (!cfg.keep_logged_in &&
          decide ((_async_status_request cfg st env o).state.updating = 0)))
  ∧ ((_async_status_request cfg st env o).session_logout &&
      (_async_status_request cfg st env o).state.loged_in) = false := by
  have hupd := run_derived_spec cfg st o
  rcases hl : webuntis_login st env with ⟨ok, st1⟩
  have hlu := webuntis_login_updating st env
  rw [hl] at hlu
  simp only at hlu
  refine ⟨hlu, webuntis_logout_updating k st,
    webuntis_logout_invoked k st, webuntis_logout_flag k st, ?_⟩
  cases ok
  · rw [if_neg (by decide : ¬ (false = true))] at hlu
    simp only [_async_status_request, hl]
    exact ⟨rfl, hlu, rfl, rfl⟩
  · rw [if_pos rfl] at hlu
    have hbody : ∀ X : CycleState, X.updating = st1.updating →
        (⟨(webuntis_logout cfg.keep_logged_in X).1, [], true, 1,
            (webuntis_logout cfg.keep_logged_in X).2⟩ : CycleResult).logout_calls =
          (if (true : Bool) = true then 1 else 0) ∧
        ((webuntis_logout cfg.keep_logged_in X).1).updating = st.updating ∧
        (webuntis_logout cfg.keep_logged_in X).2 =
          ((true : Bool) && (!cfg.keep_logged_in &&
            decide (((webuntis_logout cfg.keep_logged_in X).1).updating = 0))) ∧
        ((webuntis_logout cfg.keep_logged_in X).2 &&
          ((webuntis_logout cfg.keep_logged_in X).1).loged_in) = false := by
      intro X hX
      have hu2 : ((webuntis_logout cfg.keep_logged_in X).1).updating =
          st.updating :=
        by rw [webuntis_logout_updating, hX, hlu]; omega
      refine ⟨rfl, hu2, ?_, webuntis_logout_flag cfg.keep_logged_in X⟩
      rw [webuntis_logout_invoked, hu2]
      have hX1 : X.updating - 1 = st.updating := by rw [hX, hlu]; omega
      rw [hX1]
      simp
    rcases hs : o.r_schoolyears with u | b
    · simp only [_async_status_request, hl, hs]
      have hres : ((run_derived cfg st1 o).1).updating = st1.updating :=
        (run_derived_spec cfg st1 o).2.2.2.2.2.2.2.2.1
      exact hbody (run_derived cfg st1 o).1 hres
    · cases b
      · simp only [_async_status_request, hl, hs]
        exact hbody { resetProperties st1 with
          last_status_request_failed := true } rfl
      · simp only [_async_status_request, hl, hs]
        have hres : ((run_derived cfg st1 o).1).updating = st1.updating :=
          (run_derived_spec cfg st1 o).2.2.2.2.2.2.2.2.1
        exact hbody (run_derived cfg st1 o).1 hres

end WebUntisSpec
